import Mathlib

/-!
Verification of `shard_id.c`, over a shallow embedding of its functions.

The MySQL UDF pair `next_shard_id` / `shard_id_to_ms` of `src/shard_id.c`.

* C unsigned 64/32/16-bit values are natural numbers, reduced `% 2 ^ w` at the
  places where the C expression is converted to a `w`-bit unsigned type.
* `time_t` and `suseconds_t` (both signed 64-bit `long`) are integers; the
  conversion of a signed value to `uint64_t` is `toU64`.
* The static array `ids` is a function from the index to the cell contents;
  only the indices below `MAX_SHARDS` are cells of the C array.
* `gettimeofday` and the two `pthread_mutex_*` return codes are inputs.
-/

namespace ShardId

/-! ## Constants (`#define`s of the source) -/

/-- INTERNAL_EPOCH, 2013-06-01 00:00:00 in seconds. -/
def INTERNAL_EPOCH : Int := 1370070000

/-- INTERNAL_EPOCH_MS, 2013-06-01 00:00:00.000 in milliseconds. -/
def INTERNAL_EPOCH_MS : Nat := 1370070000000

/-- MAX_SHARDS, 10 bits for unique shards. -/
def MAX_SHARDS : Nat := 1024

/-- MAX_SHARD_VALUE, 10 bits for unique shards. -/
def MAX_SHARD_VALUE : Nat := 0x3ff

/-- MAX_COUNTER_VALUE, 13 bits for a counter value. -/
def MAX_COUNTER_VALUE : Nat := 0x1fff

/-! ## Data model -/

/-- The `struct timeval` filled in by `gettimeofday`. -/
structure Timeval where
  tv_sec : Int
  tv_usec : Int

/-- The static table `uint16_t ids[MAX_SHARDS]`. -/
abbrev Table := Nat → Nat

/-- The initializer `{[0 ... MAX_SHARDS - 1] = 0}`. -/
def ids_init : Table := fun _ => 0

/-- The assignment `ids[shard] = v`. -/
def setCell (ids : Table) (shard v : Nat) : Table :=
  fun i => if i = shard then v else ids i

/-- Conversion of a signed 64-bit value to `uint64_t`: the value modulo 2^64. -/
def toU64 (x : Int) : Nat := (x % 2 ^ 64).toNat

/-! ## Clock source -/

/-- The function `get_usec_epoch`: `usecs = (tv.tv_sec - INTERNAL_EPOCH) << 20`
stored in a `uint64_t`, then `usecs | (tv.tv_usec & 0xfffff)`.  The mask is a
non-negative constant, so the signed `&` keeps the low 20 bits of `tv_usec`
taken modulo 2^64. -/
def get_usec_epoch (tv : Timeval) : Nat :=
  let usecs := toU64 ((tv.tv_sec - INTERNAL_EPOCH) * 2 ^ 20)
  usecs ||| (toU64 tv.tv_usec &&& 0xfffff)

/-- The function `get_msec_epoch`: `get_usec_epoch() >> 10`. -/
def get_msec_epoch (tv : Timeval) : Nat :=
  get_usec_epoch tv >>> 10

/-! ## Minting -/

/-- The ways a mint can fail: the two messages of `next_shard_id_init`
(the usage line and "shard cannot be 1024 or greater") and the `*error = 1`
exits of `next_shard_id`. -/
inductive MintError where
  | usage
  | invalidShard
  | lockError
  deriving DecidableEq

/-- The function `next_shard_id_init`, on the argument vector of the call:
`arg_count` is the length of `args`, and `args[0]` is read as a `uint64_t`
only after the count check.  A return value of 1 is `Except.error` with the
message written; a return value of 0 is `Except.ok`. -/
def next_shard_id_init (args : List Nat) : Except MintError Unit :=
  if args.length ≠ 1 then
    Except.error MintError.usage
  else if args.headD 0 ≥ MAX_SHARDS then
    Except.error MintError.invalidShard
  else
    Except.ok ()

/-- What a call of `next_shard_id` leaves behind: the table, whether `*error`
was set to 1, and the returned 64-bit value. -/
structure Outcome where
  ids : Table
  error : Bool
  ret : Nat

/-- The function `next_shard_id` for `shard = *args->args[0]`, with the clock
reading and the return codes of `pthread_mutex_lock` and
`pthread_mutex_unlock` as inputs.  `lower_bits` is a `uint32_t`, the stored
counter a `uint16_t`, `now` and the result are `uint64_t`.  The early exits
return 0 with `*error` set; the second one comes after the counter store. -/
def next_shard_id (ids : Table) (tv : Timeval) (lock_rc unlock_rc : Int)
    (shard : Nat) : Outcome :=
  let now := (get_msec_epoch tv <<< 23) % 2 ^ 64
  if lock_rc ≠ 0 then
    { ids := ids, error := true, ret := 0 }
  else
    let lower_bits := ((ids shard <<< 10) ||| shard) % 2 ^ 32
    let ids1 := setCell ids shard (((ids shard + 1) &&& MAX_COUNTER_VALUE) % 2 ^ 16)
    if unlock_rc ≠ 0 then
      { ids := ids1, error := true, ret := 0 }
    else
      { ids := ids1, error := false, ret := now ||| lower_bits }

/-- The result of the whole minting operation, as the SQL caller sees it. -/
structure MintOut where
  ids : Table
  result : Except MintError Nat

/-- The minting operation: `next_shard_id_init` followed by `next_shard_id`.
The main function runs only when the init function returned 0; a call that
set `*error` yields no value. -/
def mint (ids : Table) (tv : Timeval) (lock_rc unlock_rc : Int)
    (args : List Nat) : MintOut :=
  match next_shard_id_init args with
  | Except.error e => { ids := ids, result := Except.error e }
  | Except.ok _ =>
    let o := next_shard_id ids tv lock_rc unlock_rc (args.headD 0)
    { ids := o.ids
      result := if o.error then Except.error MintError.lockError else Except.ok o.ret }

/-! ## Decoding -/

/-- The function `shard_id_to_ms` for `id = *args->args[0]`; every
intermediate is a `uint64_t`. -/
def shard_id_to_ms (id : Nat) : Nat :=
  let ts := id >>> 23
  let secs := ((ts >>> 10) * 1000) % 2 ^ 64
  let msecs := (((ts &&& MAX_SHARD_VALUE) <<< 10) % 2 ^ 64) / 1000
  (secs + msecs + INTERNAL_EPOCH_MS) % 2 ^ 64

/-! ## Field accessors and the clock domain -/

/-- The counter field of an identifier, `(id >> 10) & 0x1FFF`. -/
def counterField (id : Nat) : Nat := (id >>> 10) &&& 0x1FFF

/-- A clock reading inside the representable horizon: the seconds offset
from the internal epoch fits 31 bits and the microseconds are below one
million. -/
def InHorizon (tv : Timeval) : Prop :=
  0 ≤ tv.tv_sec - INTERNAL_EPOCH ∧ tv.tv_sec - INTERNAL_EPOCH < 2 ^ 31 ∧
    0 ≤ tv.tv_usec ∧ tv.tv_usec ≤ 999999

instance (tv : Timeval) : Decidable (InHorizon tv) := by
  unfold InHorizon; infer_instance

/-- The true millisecond since the Unix epoch of a clock reading. -/
def truth_ms (tv : Timeval) : Int := tv.tv_sec * 1000 + tv.tv_usec / 1000

/-- The order of two clock readings: lexicographic on seconds, then
microseconds (no backward clock jump from `a` to `b`). -/
def ClockLe (a b : Timeval) : Prop :=
  a.tv_sec < b.tv_sec ∨ (a.tv_sec = b.tv_sec ∧ a.tv_usec ≤ b.tv_usec)

instance (a b : Timeval) : Decidable (ClockLe a b) := by
  unfold ClockLe; infer_instance

/-! ## Sequences of calls -/

/-- The counter tables a process can be in: the initial table, and the table
left behind by any minting operation (whatever its arguments, clock reading
and lock return codes) run on a reachable table. -/
inductive Reachable : Table → Prop where
  | init : Reachable ids_init
  | step (ids : Table) (tv : Timeval) (lock_rc unlock_rc : Int) (args : List Nat) :
      Reachable ids → Reachable (mint ids tv lock_rc unlock_rc args).ids

/-- One evaluation of `next_shard_id(<shard>)`: the argument and what the
clock and the two mutex calls return during it. -/
structure Call where
  shard : Nat
  tv : Timeval
  lock_rc : Int
  unlock_rc : Int

/-- The identifiers returned, in order, by the calls on shard `s` that
produced a value, when the calls are run one after the other. -/
def mintedOn (s : Nat) (ids : Table) : List Call → List Nat
  | [] => []
  | c :: cs =>
    let o := mint ids c.tv c.lock_rc c.unlock_rc [c.shard]
    match o.result with
    | Except.ok v =>
      if c.shard = s then v :: mintedOn s o.ids cs else mintedOn s o.ids cs
    | Except.error _ => mintedOn s o.ids cs

/-- The calls of a sequence that are on shard `s`. -/
def callsOn (s : Nat) (cs : List Call) : List Call :=
  cs.filter (fun c => c.shard = s)

/-- The table after running the calls one after the other. -/
def runTable (ids : Table) : List Call → Table
  | [] => ids
  | c :: cs => runTable (mint ids c.tv c.lock_rc c.unlock_rc [c.shard]).ids cs

/-- The calls of a sequence that are on shard `s` and have both mutex calls
succeed: the successful mints on `s`. -/
def succeededOn (s : Nat) (cs : List Call) : List Call :=
  cs.filter (fun c => c.shard = s ∧ c.lock_rc = 0 ∧ c.unlock_rc = 0)

/-- The calls of a sequence that are on shard `s`, acquire the lock and fail
to release it. -/
def unlockFailedOn (s : Nat) (cs : List Call) : List Call :=
  cs.filter (fun c => c.shard = s ∧ c.lock_rc = 0 ∧ c.unlock_rc ≠ 0)

/-! ## Arithmetic of the bit operations -/

theorem mul_pow_or_eq_add (a b i : Nat) (hb : b < 2 ^ i) :
    (a * 2 ^ i) ||| b = a * 2 ^ i + b := by
  rw [Nat.mul_comm, ← Nat.mul_add_lt_is_or hb]

theorem shl_or_eq_add (a b i : Nat) (hb : b < 2 ^ i) :
    (a <<< i) ||| b = a * 2 ^ i + b := by
  rw [Nat.shiftLeft_eq, mul_pow_or_eq_add a b i hb]

theorem and_mask_eq_mod (x i : Nat) : x &&& (2 ^ i - 1) = x % 2 ^ i :=
  Nat.and_pow_two_sub_one_eq_mod x i

theorem and_0x3FF (x : Nat) : x &&& 0x3FF = x % 1024 :=
  and_mask_eq_mod x 10

theorem and_0x1FFF (x : Nat) : x &&& 0x1FFF = x % 8192 :=
  and_mask_eq_mod x 13

theorem toU64_of_nat (n : Nat) (h : n < 2 ^ 64) : toU64 (n : Int) = n := by
  unfold toU64
  omega

theorem get_usec_epoch_eq (tv : Timeval) (h : InHorizon tv) :
    get_usec_epoch tv =
      (tv.tv_sec - INTERNAL_EPOCH).toNat * 2 ^ 20 + tv.tv_usec.toNat := by
  obtain ⟨h1, h2, h3, h4⟩ := h
  obtain ⟨n, hn⟩ := Int.eq_ofNat_of_zero_le h1
  obtain ⟨u, hu⟩ := Int.eq_ofNat_of_zero_le h3
  unfold get_usec_epoch
  simp only [hn, hu]
  have e1 : toU64 ((n : Int) * 2 ^ 20) = n * 2 ^ 20 := by
    have := toU64_of_nat (n * 2 ^ 20) (by omega)
    simpa using this
  have e2 : toU64 (u : Int) = u := toU64_of_nat u (by omega)
  have e3 : u &&& 0xfffff = u % 2 ^ 20 := and_mask_eq_mod u 20
  rw [e1, e2, e3, Nat.mod_eq_of_lt (by omega), ← Nat.shiftLeft_eq,
    shl_or_eq_add n u 20 (by omega)]
  simp

theorem get_msec_epoch_eq (tv : Timeval) (h : InHorizon tv) :
    get_msec_epoch tv =
      (tv.tv_sec - INTERNAL_EPOCH).toNat * 1024 + tv.tv_usec.toNat / 1024 := by
  unfold get_msec_epoch
  rw [get_usec_epoch_eq tv h, Nat.shiftRight_eq_div_pow]
  omega

/-! ## The successful path of `next_shard_id` -/

theorem next_shard_id_error_false_iff (ids : Table) (tv : Timeval)
    (lock_rc unlock_rc : Int) (s : Nat) :
    (next_shard_id ids tv lock_rc unlock_rc s).error = false ↔
      lock_rc = 0 ∧ unlock_rc = 0 := by
  unfold next_shard_id
  by_cases hl : lock_rc = 0 <;> by_cases hu : unlock_rc = 0 <;> simp [hl, hu]

theorem next_shard_id_ret_ok (ids : Table) (tv : Timeval) (s : Nat) :
    (next_shard_id ids tv 0 0 s).ret =
      ((get_msec_epoch tv <<< 23) % 2 ^ 64) ||| (((ids s <<< 10) ||| s) % 2 ^ 32) := by
  simp [next_shard_id]

theorem next_shard_id_ids_ok (ids : Table) (tv : Timeval) (unlock_rc : Int) (s : Nat) :
    (next_shard_id ids tv 0 unlock_rc s).ids =
      setCell ids s (((ids s + 1) &&& MAX_COUNTER_VALUE) % 2 ^ 16) := by
  unfold next_shard_id
  by_cases hu : unlock_rc = 0 <;> simp [hu]

theorem lower_bits_eq (c s : Nat) (hs : s < 1024) :
    ((c <<< 10) ||| s) % 2 ^ 32 = (c * 1024 + s) % 2 ^ 32 := by
  rw [shl_or_eq_add c s 10 (by omega)]
  norm_num

/-- The returned value in arithmetic form, for a counter cell that holds at
most 13 bits: the wrapped time term plus the counter and shard terms. -/
theorem next_shard_id_ret_add (ids : Table) (tv : Timeval) (s : Nat)
    (hs : s < 1024) (hc : ids s ≤ 8191) :
    (next_shard_id ids tv 0 0 s).ret =
      (get_msec_epoch tv % 2 ^ 41) * 2 ^ 23 + ids s * 1024 + s := by
  rw [next_shard_id_ret_ok, lower_bits_eq _ _ hs, Nat.shiftLeft_eq]
  have e : (get_msec_epoch tv * 2 ^ 23) % 2 ^ 64 = (get_msec_epoch tv % 2 ^ 41) * 2 ^ 23 :=
    Nat.mul_mod_mul_right (2 ^ 23) (get_msec_epoch tv) (2 ^ 41)
  rw [e, Nat.mod_eq_of_lt (show ids s * 1024 + s < 2 ^ 32 by omega),
    mul_pow_or_eq_add _ _ 23 (show ids s * 1024 + s < 2 ^ 23 by omega)]
  omega

theorem get_msec_epoch_lt (tv : Timeval) (h : InHorizon tv) :
    get_msec_epoch tv < 2 ^ 41 := by
  rw [get_msec_epoch_eq tv h]
  obtain ⟨h1, h2, h3, h4⟩ := h
  omega

theorem or_mod_pow_of_mul (q l k : Nat) :
    ((q * 2 ^ k) ||| l) % 2 ^ k = l % 2 ^ k := by
  rw [← and_mask_eq_mod, Nat.and_comm, Nat.and_or_distrib_left,
    Nat.and_comm, and_mask_eq_mod, Nat.and_comm _ l, and_mask_eq_mod,
    Nat.mul_mod_left, Nat.zero_or]

/-- The shard field of a returned id is the shard, whatever the cell holds
and whatever the clock reads. -/
theorem next_shard_id_shard_bits (ids : Table) (tv : Timeval) (s : Nat)
    (hs : s < 1024) :
    (next_shard_id ids tv 0 0 s).ret &&& 0x3FF = s := by
  rw [next_shard_id_ret_ok, lower_bits_eq _ _ hs, Nat.shiftLeft_eq, and_0x3FF]
  have e : (get_msec_epoch tv * 2 ^ 23) % 2 ^ 64
      = ((get_msec_epoch tv % 2 ^ 41) * 2 ^ 13) * 2 ^ 10 := by
    have := Nat.mul_mod_mul_right (2 ^ 23) (get_msec_epoch tv) (2 ^ 41)
    omega
  rw [e]
  have := or_mod_pow_of_mul ((get_msec_epoch tv % 2 ^ 41) * 2 ^ 13)
    ((ids s * 1024 + s) % 2 ^ 32) 10
  omega

/-- The init check passes exactly on a single argument below 1024. -/
theorem next_shard_id_init_single (shard : Nat) :
    next_shard_id_init [shard] =
      if 1024 ≤ shard then Except.error MintError.invalidShard else Except.ok () := by
  simp [next_shard_id_init, MAX_SHARDS]

/-- A call of `next_shard_id` leaves a cell at most 8191 if it was. -/
theorem next_shard_id_cell_range (ids : Table) (tv : Timeval)
    (lock_rc unlock_rc : Int) (s i : Nat) (h : ids i ≤ 8191) :
    (next_shard_id ids tv lock_rc unlock_rc s).ids i ≤ 8191 := by
  by_cases hl : lock_rc = 0
  · subst hl
    rw [next_shard_id_ids_ok]
    unfold setCell
    by_cases hi : i = s
    · simp only [hi, if_true, MAX_COUNTER_VALUE]
      rw [and_0x1FFF]
      omega
    · simp only [hi, if_false]
      exact h
  · simp only [next_shard_id, hl, ne_eq, not_false_eq_true, if_true]
    exact h

theorem mint_range (ids : Table) (tv : Timeval) (lock_rc unlock_rc : Int)
    (args : List Nat) (h : ∀ i, ids i ≤ 8191) :
    ∀ i, (mint ids tv lock_rc unlock_rc args).ids i ≤ 8191 := by
  unfold mint
  cases next_shard_id_init args with
  | error e => exact h
  | ok u => exact fun i => next_shard_id_cell_range ids tv lock_rc unlock_rc _ i (h i)

theorem reachable_range (ids : Table) (h : Reachable ids) : ∀ i, ids i ≤ 8191 := by
  induction h with
  | init => intro i; simp [ids_init]
  | step ids tv lock_rc unlock_rc args _ ih =>
    exact mint_range ids tv lock_rc unlock_rc args ih

/-! ## Runs of calls -/

/-- A minting operation can change no cell but the one of its first argument. -/
theorem mint_frame (ids : Table) (tv : Timeval) (lock_rc unlock_rc : Int)
    (args : List Nat) (j : Nat) (h : j ≠ args.headD 0) :
    (mint ids tv lock_rc unlock_rc args).ids j = ids j := by
  unfold mint
  cases next_shard_id_init args with
  | error e => rfl
  | ok u =>
    by_cases hl : lock_rc = 0
    · subst hl
      simp only [next_shard_id_ids_ok, setCell, h, if_false]
    · simp [next_shard_id, hl]

/-- A minting operation on a valid shard with both mutex calls succeeding is
the successful path of `next_shard_id`. -/
theorem mint_ok (ids : Table) (tv : Timeval) (s : Nat) (hs : s < 1024) :
    mint ids tv 0 0 [s] =
      { ids := (next_shard_id ids tv 0 0 s).ids
        result := Except.ok (next_shard_id ids tv 0 0 s).ret } := by
  have hn : ¬ 1024 ≤ s := by omega
  unfold mint
  rw [next_shard_id_init_single]
  simp [hn, next_shard_id]

theorem mintedOn_cons_ne (s : Nat) (ids : Table) (c : Call) (cs : List Call)
    (h : c.shard ≠ s) :
    mintedOn s ids (c :: cs) =
      mintedOn s (mint ids c.tv c.lock_rc c.unlock_rc [c.shard]).ids cs := by
  rw [mintedOn]
  cases (mint ids c.tv c.lock_rc c.unlock_rc [c.shard]).result with
  | error e => rfl
  | ok v => simp [h]

theorem mintedOn_cons_ok (s : Nat) (ids : Table) (c : Call) (cs : List Call)
    (hs : s < 1024) (h : c.shard = s) (hl : c.lock_rc = 0) (hu : c.unlock_rc = 0) :
    mintedOn s ids (c :: cs) =
      (next_shard_id ids c.tv 0 0 s).ret :: mintedOn s (next_shard_id ids c.tv 0 0 s).ids cs := by
  rw [mintedOn, h, hl, hu, mint_ok ids c.tv s hs]
  simp

theorem next_shard_id_counter_bits (ids : Table) (tv : Timeval) (s : Nat)
    (hs : s < 1024) (hc : ids s ≤ 8191) :
    counterField (next_shard_id ids tv 0 0 s).ret = ids s := by
  unfold counterField
  rw [next_shard_id_ret_add ids tv s hs hc, Nat.shiftRight_eq_div_pow, and_0x1FFF]
  omega

theorem next_shard_id_advance (ids : Table) (tv : Timeval) (unlock_rc : Int) (s : Nat) :
    (next_shard_id ids tv 0 unlock_rc s).ids s = (ids s + 1) % 8192 := by
  rw [next_shard_id_ids_ok]
  simp only [setCell, if_true, MAX_COUNTER_VALUE]
  rw [and_0x1FFF]
  omega

/-- The counter fields handed out on shard `s` by a run in which every call on
`s` succeeds: they count up from the cell contents, modulo 8192. -/
theorem mintedOn_counters (s : Nat) (hs : s < 1024) (cs : List Call) :
    ∀ ids : Table, ids s ≤ 8191 →
      (∀ c ∈ cs, c.shard = s → c.lock_rc = 0 ∧ c.unlock_rc = 0) →
      (mintedOn s ids cs).map counterField =
        (List.range (callsOn s cs).length).map (fun j => (ids s + j) % 8192) := by
  induction cs with
  | nil => intro ids _ _; simp [mintedOn, callsOn]
  | cons c cs ih =>
    intro ids hc hsucc
    have hrest : ∀ d ∈ cs, d.shard = s → d.lock_rc = 0 ∧ d.unlock_rc = 0 :=
      fun d hd => hsucc d (List.mem_cons_of_mem c hd)
    by_cases h : c.shard = s
    · obtain ⟨hl, hu⟩ := hsucc c (List.mem_cons_self c cs) h
      have hadv := next_shard_id_advance ids c.tv 0 s
      have hlen : (callsOn s (c :: cs)).length = (callsOn s cs).length + 1 := by
        simp [callsOn, h]
      rw [mintedOn_cons_ok s ids c cs hs h hl hu, hlen, List.range_succ_eq_map,
        List.map_cons, List.map_cons, List.map_map,
        next_shard_id_counter_bits ids c.tv s hs hc,
        ih (next_shard_id ids c.tv 0 0 s).ids (by rw [hadv]; omega) hrest, hadv]
      congr 1
      · simp only [Nat.add_zero]; omega
      · apply List.map_congr_left
        intro j _
        simp only [Function.comp, Nat.succ_eq_add_one]
        omega
    · have hfr : (mint ids c.tv c.lock_rc c.unlock_rc [c.shard]).ids s = ids s :=
        mint_frame ids c.tv c.lock_rc c.unlock_rc [c.shard] s (by simpa using Ne.symm h)
      have hlen : (callsOn s (c :: cs)).length = (callsOn s cs).length := by
        simp [callsOn, h]
      rw [mintedOn_cons_ne s ids c cs h, hlen,
        ih (mint ids c.tv c.lock_rc c.unlock_rc [c.shard]).ids (by rw [hfr]; exact hc) hrest,
        hfr]

theorem callsOn_replicate (s n : Nat) (c : Call) (h : c.shard = s) :
    (callsOn s (List.replicate n c)).length = n := by
  unfold callsOn
  rw [List.filter_replicate_of_pos (by simpa using h), List.length_replicate]

theorem counters_nodup (c0 n : Nat) (hn : n ≤ 8192) :
    ((List.range n).map (fun j => (c0 + j) % 8192)).Nodup := by
  apply List.Nodup.map_on _ (List.nodup_range n)
  intro x hx y hy hxy
  rw [List.mem_range] at hx hy
  simp only at hxy
  omega

/-! ## Decoding, in arithmetic form -/

/-- For a 64-bit argument no step of `shard_id_to_ms` wraps. -/
theorem shard_id_to_ms_arith (id : Nat) (h : id < 2 ^ 64) :
    shard_id_to_ms id =
      (id / 2 ^ 23 / 1024) * 1000 + (id / 2 ^ 23 % 1024 * 1024) / 1000 + 1370070000000 := by
  unfold shard_id_to_ms
  simp only [MAX_SHARD_VALUE, INTERNAL_EPOCH_MS]
  rw [and_0x3FF, Nat.shiftLeft_eq, Nat.shiftRight_eq_div_pow, Nat.shiftRight_eq_div_pow]
  have ha : id / 2 ^ 23 < 2 ^ 41 := by omega
  generalize id / 2 ^ 23 = a at ha
  have e1 : a / 2 ^ 10 * 1000 % 2 ^ 64 = a / 1024 * 1000 :=
    Nat.mod_eq_of_lt (show a / 2 ^ 10 * 1000 < 2 ^ 64 by omega)
  have e2 : a % 1024 * 2 ^ 10 % 2 ^ 64 = a % 1024 * 1024 :=
    Nat.mod_eq_of_lt (show a % 1024 * 2 ^ 10 < 2 ^ 64 by omega)
  rw [e1, e2]
  exact Nat.mod_eq_of_lt (by omega)

theorem decode_compact (t : Nat) (ht : t < 2 ^ 41) :
    shard_id_to_ms (t <<< 23) =
      (t / 1024) * 1000 + (t % 1024 * 1024) / 1000 + 1370070000000 := by
  have hlt : t <<< 23 < 2 ^ 64 := by rw [Nat.shiftLeft_eq]; omega
  rw [shard_id_to_ms_arith _ hlt, Nat.shiftLeft_eq]
  have e : t * 2 ^ 23 / 2 ^ 23 = t := by omega
  rw [e]

/-- Decoding the compact time of a clock reading, against the true
millisecond: never above it and at most 2 below it. -/
theorem decode_vs_truth (tv : Timeval) (h : InHorizon tv) :
    (shard_id_to_ms (get_msec_epoch tv <<< 23) : Int) ≤ truth_ms tv ∧
      truth_ms tv ≤ (shard_id_to_ms (get_msec_epoch tv <<< 23) : Int) + 2 := by
  rw [decode_compact _ (get_msec_epoch_lt tv h), get_msec_epoch_eq tv h]
  obtain ⟨h1, h2, h3, h4⟩ := h
  obtain ⟨n, hn⟩ := Int.eq_ofNat_of_zero_le h1
  obtain ⟨u, hu⟩ := Int.eq_ofNat_of_zero_le h3
  have hsec : tv.tv_sec = (n : Int) + 1370070000 := by
    simp only [INTERNAL_EPOCH] at hn; omega
  unfold truth_ms
  rw [hn, hu, hsec]
  simp only [Int.toNat_ofNat]
  have e1 : (n * 1024 + u / 1024) / 1024 = n := by omega
  have e2 : (n * 1024 + u / 1024) % 1024 = u / 1024 := by omega
  rw [e1, e2]
  push_cast
  omega

/-- The function `shard_id_to_ms` reads its argument through `id >> 23` only. -/
theorem shard_id_to_ms_congr (id1 id2 : Nat) (h : id1 >>> 23 = id2 >>> 23) :
    shard_id_to_ms id1 = shard_id_to_ms id2 := by
  unfold shard_id_to_ms
  rw [h]

/-- The time field of a returned id is the compact time, for a cell of at
most 13 bits and a clock reading inside the horizon. -/
theorem next_shard_id_time_bits (ids : Table) (tv : Timeval) (s : Nat)
    (hs : s < 1024) (hc : ids s ≤ 8191) (htv : InHorizon tv) :
    (next_shard_id ids tv 0 0 s).ret >>> 23 = get_msec_epoch tv := by
  have ht := get_msec_epoch_lt tv htv
  rw [next_shard_id_ret_add ids tv s hs hc, Nat.mod_eq_of_lt ht,
    Nat.shiftRight_eq_div_pow]
  omega

theorem decode_minted (ids : Table) (tv : Timeval) (s : Nat)
    (hs : s < 1024) (hc : ids s ≤ 8191) (htv : InHorizon tv) :
    shard_id_to_ms (next_shard_id ids tv 0 0 s).ret
      = shard_id_to_ms (get_msec_epoch tv <<< 23) := by
  apply shard_id_to_ms_congr
  rw [next_shard_id_time_bits ids tv s hs hc htv, Nat.shiftLeft_eq,
    Nat.shiftRight_eq_div_pow]
  omega

/-- The decoded compact time of a clock reading inside the horizon, in terms
of the seconds offset and the microseconds. -/
theorem decode_clock (tv : Timeval) (h : InHorizon tv) :
    shard_id_to_ms (get_msec_epoch tv <<< 23) =
      (tv.tv_sec - INTERNAL_EPOCH).toNat * 1000
        + (tv.tv_usec.toNat / 1024 * 1024) / 1000 + 1370070000000 := by
  rw [decode_compact _ (get_msec_epoch_lt tv h), get_msec_epoch_eq tv h]
  obtain ⟨h1, h2, h3, h4⟩ := h
  have hu : tv.tv_usec.toNat ≤ 999999 := by omega
  generalize (tv.tv_sec - INTERNAL_EPOCH).toNat = n
  generalize tv.tv_usec.toNat = u at hu
  have e1 : (n * 1024 + u / 1024) / 1024 = n := by omega
  have e2 : (n * 1024 + u / 1024) % 1024 = u / 1024 := by omega
  rw [e1, e2]

theorem get_msec_epoch_mono (a b : Timeval) (ha : InHorizon a) (hb : InHorizon b)
    (hab : ClockLe a b) : get_msec_epoch a ≤ get_msec_epoch b := by
  rw [get_msec_epoch_eq a ha, get_msec_epoch_eq b hb]
  obtain ⟨a1, a2, a3, a4⟩ := ha
  obtain ⟨b1, b2, b3, b4⟩ := hb
  unfold ClockLe at hab
  omega

theorem decode_clock_mono (a b : Timeval) (ha : InHorizon a) (hb : InHorizon b)
    (hab : ClockLe a b) :
    shard_id_to_ms (get_msec_epoch a <<< 23) ≤ shard_id_to_ms (get_msec_epoch b <<< 23) := by
  rw [decode_clock a ha, decode_clock b hb]
  obtain ⟨a1, a2, a3, a4⟩ := ha
  obtain ⟨b1, b2, b3, b4⟩ := hb
  unfold ClockLe at hab
  omega

/-- A call of `next_shard_id` on `s` stores to no cell but `s`. -/
theorem next_shard_id_frame (ids : Table) (tv : Timeval) (lock_rc unlock_rc : Int)
    (s j : Nat) (h : j ≠ s) :
    (next_shard_id ids tv lock_rc unlock_rc s).ids j = ids j := by
  by_cases hl : lock_rc = 0
  · subst hl
    simp only [next_shard_id_ids_ok, setCell, h, if_false]
  · simp [next_shard_id, hl]

/-- Bits of the right operand below the shift amount do not survive it. -/
theorem or_shiftRight_of_lt (a l k : Nat) (hl : l < 2 ^ k) :
    (a ||| l) >>> k = a >>> k := by
  apply Nat.eq_of_testBit_eq
  intro i
  have hlt : l < 2 ^ (k + i) :=
    Nat.lt_of_lt_of_le hl (Nat.pow_le_pow_right (by decide) (Nat.le_add_right k i))
  simp [Nat.testBit_shiftRight, Nat.testBit_or, Nat.testBit_lt_two_pow hlt]

theorem toU64_nat (m : Nat) : toU64 (m : Int) = m % 2 ^ 64 := by
  unfold toU64
  omega

/-- The compact time for a non-negative seconds offset `n`, whatever the
microseconds: the offset is cut to 44 bits by the 64-bit shift. -/
theorem get_msec_epoch_wrap (tv : Timeval) (n : Nat)
    (hn : tv.tv_sec - INTERNAL_EPOCH = (n : Int)) :
    get_msec_epoch tv = (n % 2 ^ 44) * 1024 + (toU64 tv.tv_usec % 2 ^ 20) / 1024 := by
  unfold get_msec_epoch get_usec_epoch
  simp only [hn]
  have e1 : toU64 ((n : Int) * 2 ^ 20) = (n % 2 ^ 44) * 2 ^ 20 := by
    have h1 := toU64_nat (n * 2 ^ 20)
    have h2 := Nat.mul_mod_mul_right (2 ^ 20) n (2 ^ 44)
    have h3 : ((n * 2 ^ 20 : Nat) : Int) = (n : Int) * 2 ^ 20 := by push_cast; rfl
    rw [← h3, h1]
    exact h2
  have e3 : toU64 tv.tv_usec &&& 0xfffff = toU64 tv.tv_usec % 2 ^ 20 :=
    and_mask_eq_mod _ 20
  rw [e1, e3, mul_pow_or_eq_add _ _ 20 (Nat.mod_lt _ (by decide)),
    Nat.shiftRight_eq_div_pow]
  omega

/-- The seconds field `id >> 33` of a returned id is the seconds offset
modulo 2^31, for any table and any non-negative offset. -/
theorem next_shard_id_seconds_field (ids : Table) (tv : Timeval) (s n : Nat)
    (hn : tv.tv_sec - INTERNAL_EPOCH = (n : Int)) :
    (next_shard_id ids tv 0 0 s).ret >>> 33 = n % 2 ^ 31 := by
  rw [next_shard_id_ret_ok,
    or_shiftRight_of_lt _ _ 33
      (Nat.lt_of_lt_of_le (Nat.mod_lt _ (by decide)) (by decide)),
    Nat.shiftLeft_eq,
    show get_msec_epoch tv * 2 ^ 23 % 2 ^ 64 = get_msec_epoch tv % 2 ^ 41 * 2 ^ 23 from
      Nat.mul_mod_mul_right (2 ^ 23) (get_msec_epoch tv) (2 ^ 41),
    get_msec_epoch_wrap tv n hn, Nat.shiftRight_eq_div_pow]
  have hq : toU64 tv.tv_usec % 2 ^ 20 / 1024 < 1024 := by omega
  generalize toU64 tv.tv_usec % 2 ^ 20 / 1024 = q at hq
  have hm : n % 2 ^ 44 % 2 ^ 31 = n % 2 ^ 31 :=
    Nat.mod_mod_of_dvd n (Nat.pow_dvd_pow 2 (by decide))
  generalize n % 2 ^ 44 = m at hm
  omega

/-- A failed mutex call makes `next_shard_id` return 0 with `*error` set. -/
theorem next_shard_id_fail (ids : Table) (tv : Timeval) (lock_rc unlock_rc : Int)
    (s : Nat) (h : lock_rc ≠ 0 ∨ unlock_rc ≠ 0) :
    (next_shard_id ids tv lock_rc unlock_rc s).error = true ∧
      (next_shard_id ids tv lock_rc unlock_rc s).ret = 0 := by
  unfold next_shard_id
  by_cases hl : lock_rc = 0
  · have hu : unlock_rc ≠ 0 := by
      rcases h with h | h
      · exact absurd hl h
      · exact h
    simp [hl, hu]
  · simp [hl]

theorem next_shard_id_lock_fail (ids : Table) (tv : Timeval) (lock_rc unlock_rc : Int)
    (s : Nat) (h : lock_rc ≠ 0) :
    (next_shard_id ids tv lock_rc unlock_rc s).ids = ids := by
  simp [next_shard_id, h]

/-! ## Indexing the identifiers of a run -/

theorem getElem?_map_range_lt {β : Type} (g : Nat → β) (k n : Nat) (h : n < k) :
    ((List.range k).map g)[n]? = some (g n) := by
  rw [List.getElem?_map, List.getElem?_range h]
  rfl

/-- The identifiers a run returns on shard `s` when every call on `s`
succeeds and reads the same clock: the time term is fixed and the counter
counts up from the cell contents, modulo 8192. -/
theorem mintedOn_same_clock (s : Nat) (hs : s < 1024) (tv : Timeval) (cs : List Call) :
    ∀ ids : Table, ids s ≤ 8191 →
      (∀ c ∈ cs, c.shard = s → c.lock_rc = 0 ∧ c.unlock_rc = 0) →
      (∀ c ∈ cs, c.shard = s → c.tv = tv) →
      mintedOn s ids cs =
        (List.range (callsOn s cs).length).map
          (fun j => (get_msec_epoch tv % 2 ^ 41) * 2 ^ 23 + ((ids s + j) % 8192) * 1024 + s) := by
  induction cs with
  | nil => intro ids _ _ _; simp [mintedOn, callsOn]
  | cons c cs ih =>
    intro ids hc hsucc hclock
    have hrest : ∀ d ∈ cs, d.shard = s → d.lock_rc = 0 ∧ d.unlock_rc = 0 :=
      fun d hd => hsucc d (List.mem_cons_of_mem c hd)
    have hrest2 : ∀ d ∈ cs, d.shard = s → d.tv = tv :=
      fun d hd => hclock d (List.mem_cons_of_mem c hd)
    by_cases h : c.shard = s
    · obtain ⟨hl, hu⟩ := hsucc c (List.mem_cons_self c cs) h
      have htv := hclock c (List.mem_cons_self c cs) h
      have hadv := next_shard_id_advance ids tv 0 s
      have hlen : (callsOn s (c :: cs)).length = (callsOn s cs).length + 1 := by
        simp [callsOn, h]
      rw [mintedOn_cons_ok s ids c cs hs h hl hu, hlen, List.range_succ_eq_map,
        List.map_cons, List.map_map, htv,
        next_shard_id_ret_add ids tv s hs hc,
        ih (next_shard_id ids tv 0 0 s).ids (by rw [hadv]; omega) hrest hrest2, hadv]
      refine congrArg₂ List.cons ?_ ?_
      · simp only [Nat.add_zero]
        rw [Nat.mod_eq_of_lt (show ids s < 8192 by omega)]
      · apply List.map_congr_left
        intro j _
        simp only [Function.comp, Nat.succ_eq_add_one]
        have e : ((ids s + 1) % 8192 + j) % 8192 = (ids s + (j + 1)) % 8192 := by omega
        rw [e]
    · have hfr : (mint ids c.tv c.lock_rc c.unlock_rc [c.shard]).ids s = ids s :=
        mint_frame ids c.tv c.lock_rc c.unlock_rc [c.shard] s (by simpa using Ne.symm h)
      have hlen : (callsOn s (c :: cs)).length = (callsOn s cs).length := by
        simp [callsOn, h]
      rw [mintedOn_cons_ne s ids c cs h, hlen,
        ih (mint ids c.tv c.lock_rc c.unlock_rc [c.shard]).ids (by rw [hfr]; exact hc)
          hrest hrest2,
        hfr]

theorem ids_same_clock_nodup (T c0 s n : Nat) (hn : n ≤ 8192) :
    ((List.range n).map
      (fun j => T * 2 ^ 23 + ((c0 + j) % 8192) * 1024 + s)).Nodup := by
  apply List.Nodup.map_on _ (List.nodup_range n)
  intro x hx y hy hxy
  rw [List.mem_range] at hx hy
  simp only at hxy
  omega

/-! ## Runs with failing calls on the shard -/

/-- On a valid shard the minting operation leaves the table `next_shard_id`
leaves. -/
theorem mint_ids_valid (ids : Table) (tv : Timeval) (lock_rc unlock_rc : Int)
    (s : Nat) (hs : s < 1024) :
    (mint ids tv lock_rc unlock_rc [s]).ids
      = (next_shard_id ids tv lock_rc unlock_rc s).ids := by
  have hn : ¬ 1024 ≤ s := by omega
  unfold mint
  rw [next_shard_id_init_single]
  simp [hn]

/-- On a valid shard a call with a failing mutex call yields no value. -/
theorem mint_result_fail (ids : Table) (tv : Timeval) (lock_rc unlock_rc : Int)
    (s : Nat) (hs : s < 1024) (h : lock_rc ≠ 0 ∨ unlock_rc ≠ 0) :
    (mint ids tv lock_rc unlock_rc [s]).result = Except.error MintError.lockError := by
  have hn : ¬ 1024 ≤ s := by omega
  have he := (next_shard_id_fail ids tv lock_rc unlock_rc s h).1
  unfold mint
  rw [next_shard_id_init_single]
  simp [hn, he]

theorem mintedOn_cons_fail (s : Nat) (ids : Table) (c : Call) (cs : List Call)
    (hs : s < 1024) (h : c.shard = s) (hf : c.lock_rc ≠ 0 ∨ c.unlock_rc ≠ 0) :
    mintedOn s ids (c :: cs) =
      mintedOn s (mint ids c.tv c.lock_rc c.unlock_rc [c.shard]).ids cs := by
  rw [mintedOn]
  have hr := mint_result_fail ids c.tv c.lock_rc c.unlock_rc s hs hf
  rw [← h] at hr
  simp only [hr]

theorem mintedOn_append (s : Nat) (pre rest : List Call) :
    ∀ ids : Table,
      mintedOn s ids (pre ++ rest)
        = mintedOn s ids pre ++ mintedOn s (runTable ids pre) rest := by
  induction pre with
  | nil => intro ids; simp [mintedOn, runTable]
  | cons c pre ih =>
    intro ids
    rw [List.cons_append, mintedOn, mintedOn, runTable]
    cases (mint ids c.tv c.lock_rc c.unlock_rc [c.shard]).result with
    | error e => exact ih _
    | ok v =>
      by_cases h : c.shard = s
      · simp only [h, if_true, List.cons_append]
        rw [ih]
      · simp only [h, if_false]
        exact ih _

/-- Every successful call on a valid shard `s` returns one identifier, and no
other call on `s` returns any. -/
theorem mintedOn_length (s : Nat) (hs : s < 1024) (cs : List Call) :
    ∀ ids : Table, (mintedOn s ids cs).length = (succeededOn s cs).length := by
  induction cs with
  | nil => intro ids; simp [mintedOn, succeededOn]
  | cons c cs ih =>
    intro ids
    by_cases h : c.shard = s
    · by_cases hok : c.lock_rc = 0 ∧ c.unlock_rc = 0
      · rw [mintedOn_cons_ok s ids c cs hs h hok.1 hok.2, List.length_cons, ih]
        simp [succeededOn, h, hok.1, hok.2]
      · have hf : c.lock_rc ≠ 0 ∨ c.unlock_rc ≠ 0 := by
          by_cases hl : c.lock_rc = 0
          · exact Or.inr (fun hu => hok ⟨hl, hu⟩)
          · exact Or.inl hl
        have hfilter : succeededOn s (c :: cs) = succeededOn s cs := by
          unfold succeededOn
          rw [List.filter_cons_of_neg]
          simpa [h] using hok
        rw [mintedOn_cons_fail s ids c cs hs h hf, ih, hfilter]
    · have hfilter : succeededOn s (c :: cs) = succeededOn s cs := by
        unfold succeededOn
        rw [List.filter_cons_of_neg]
        simp [h]
      rw [mintedOn_cons_ne s ids c cs h, ih, hfilter]

/-- The cell of a valid shard `s` after a run: it has advanced once for every
call on `s` that acquired the lock, whether or not the release succeeded. -/
theorem runTable_cell (s : Nat) (hs : s < 1024) (cs : List Call) :
    ∀ ids : Table, ids s ≤ 8191 →
      runTable ids cs s
        = (ids s + (succeededOn s cs).length + (unlockFailedOn s cs).length) % 8192 := by
  induction cs with
  | nil =>
    intro ids hc
    simp only [runTable, succeededOn, unlockFailedOn, List.filter_nil, List.length_nil]
    omega
  | cons c cs ih =>
    intro ids hc
    rw [runTable]
    by_cases h : c.shard = s
    · rw [h, mint_ids_valid ids c.tv c.lock_rc c.unlock_rc s hs]
      by_cases hl : c.lock_rc = 0
      · have hadv : (next_shard_id ids c.tv c.lock_rc c.unlock_rc s).ids s
            = (ids s + 1) % 8192 := by
          rw [hl]; exact next_shard_id_advance ids c.tv c.unlock_rc s
        rw [ih _ (by rw [hadv]; omega), hadv]
        by_cases hu : c.unlock_rc = 0
        · have f1 : (succeededOn s (c :: cs)).length = (succeededOn s cs).length + 1 := by
            simp [succeededOn, h, hl, hu]
          have f2 : (unlockFailedOn s (c :: cs)).length = (unlockFailedOn s cs).length := by
            simp [unlockFailedOn, h, hl, hu]
          rw [f1, f2]
          omega
        · have f1 : (succeededOn s (c :: cs)).length = (succeededOn s cs).length := by
            simp [succeededOn, h, hl, hu]
          have f2 : (unlockFailedOn s (c :: cs)).length
              = (unlockFailedOn s cs).length + 1 := by
            simp [unlockFailedOn, h, hl, hu]
          rw [f1, f2]
          omega
      · have f1 : (succeededOn s (c :: cs)).length = (succeededOn s cs).length := by
          simp [succeededOn, h, hl]
        have f2 : (unlockFailedOn s (c :: cs)).length = (unlockFailedOn s cs).length := by
          simp [unlockFailedOn, h, hl]
        rw [next_shard_id_lock_fail ids c.tv c.lock_rc c.unlock_rc s hl, ih ids hc, f1, f2]
    · have hfr : (mint ids c.tv c.lock_rc c.unlock_rc [c.shard]).ids s = ids s :=
        mint_frame ids c.tv c.lock_rc c.unlock_rc [c.shard] s (by simpa using Ne.symm h)
      have f1 : (succeededOn s (c :: cs)).length = (succeededOn s cs).length := by
        simp [succeededOn, h]
      have f2 : (unlockFailedOn s (c :: cs)).length = (unlockFailedOn s cs).length := by
        simp [unlockFailedOn, h]
      rw [ih _ (by rw [hfr]; exact hc), hfr, f1, f2]

/-- The counter field of the id a successful call on `s` returns after the
run `pre` from the initial table. -/
theorem minted_after_run (s : Nat) (hs : s < 1024) (pre : List Call) (tv : Timeval) :
    counterField (next_shard_id (runTable ids_init pre) tv 0 0 s).ret
      = ((succeededOn s pre).length + (unlockFailedOn s pre).length) % 8192 := by
  have hcell := runTable_cell s hs pre ids_init (by simp [ids_init])
  simp only [ids_init, Nat.zero_add] at hcell
  rw [next_shard_id_counter_bits _ tv s hs (by rw [hcell]; omega), hcell]

/-! ## Claims -/

/-- C1: for a shard below 1024, a counter cell holding c ≤ 8191 and a clock
reading inside the horizon, a successful `next_shard_id` returns exactly
`(t << 23) | (c << 10) | s` with `t` the value of `get_msec_epoch`; that value
is below 2^64 (nothing is truncated) and the three fields are recovered by
`id >> 23`, `(id >> 10) & 0x1FFF` and `id & 0x3FF`. -/
theorem C1_mint_layout (ids : Table) (tv : Timeval) (lock_rc unlock_rc : Int)
    (s c : Nat) (hs : s < 1024) (hcell : ids s = c) (hc : c ≤ 8191)
    (htv : InHorizon tv)
    (hok : (next_shard_id ids tv lock_rc unlock_rc s).error = false) :
    (next_shard_id ids tv lock_rc unlock_rc s).ret
        = (((get_msec_epoch tv) <<< 23) ||| (c <<< 10)) ||| s ∧
      (((get_msec_epoch tv) <<< 23) ||| (c <<< 10)) ||| s < 2 ^ 64 ∧
      (next_shard_id ids tv lock_rc unlock_rc s).ret >>> 23 = get_msec_epoch tv ∧
      ((next_shard_id ids tv lock_rc unlock_rc s).ret >>> 10) &&& 0x1FFF = c ∧
      (next_shard_id ids tv lock_rc unlock_rc s).ret &&& 0x3FF = s := by
  obtain ⟨hl, hu⟩ := (next_shard_id_error_false_iff ids tv lock_rc unlock_rc s).1 hok
  subst hl hu hcell
  have ht := get_msec_epoch_lt tv htv
  have hret := next_shard_id_ret_add ids tv s hs hc
  rw [Nat.mod_eq_of_lt ht] at hret
  have hspec : (((get_msec_epoch tv) <<< 23) ||| (ids s <<< 10)) ||| s
      = get_msec_epoch tv * 2 ^ 23 + ids s * 1024 + s := by
    have e : get_msec_epoch tv * 2 ^ 23 + ids s * 2 ^ 10
        = (get_msec_epoch tv * 2 ^ 13 + ids s) * 2 ^ 10 := by omega
    rw [Nat.shiftLeft_eq (ids s) 10,
      shl_or_eq_add _ _ 23 (show ids s * 2 ^ 10 < 2 ^ 23 by omega), e,
      mul_pow_or_eq_add _ _ 10 (show s < 2 ^ 10 by omega)]
    omega
  rw [hspec, hret]
  refine ⟨rfl, by omega, ?_, ?_, ?_⟩
  · rw [Nat.shiftRight_eq_div_pow]; omega
  · rw [Nat.shiftRight_eq_div_pow, and_0x1FFF]; omega
  · rw [and_0x3FF]; omega

/-- C1 at a concrete input: cell 5 holds 7, one second and 43000 µs after
the internal epoch. -/
theorem C1_mint_layout_witness :
    (next_shard_id (setCell ids_init 5 7) ⟨1370070001, 43000⟩ 0 0 5).ret
        = (((get_msec_epoch ⟨1370070001, 43000⟩) <<< 23) ||| (7 <<< 10)) ||| 5 ∧
      (((get_msec_epoch ⟨1370070001, 43000⟩) <<< 23) ||| (7 <<< 10)) ||| 5 < 2 ^ 64 ∧
      (next_shard_id (setCell ids_init 5 7) ⟨1370070001, 43000⟩ 0 0 5).ret >>> 23
        = get_msec_epoch ⟨1370070001, 43000⟩ ∧
      ((next_shard_id (setCell ids_init 5 7) ⟨1370070001, 43000⟩ 0 0 5).ret >>> 10)
        &&& 0x1FFF = 7 ∧
      (next_shard_id (setCell ids_init 5 7) ⟨1370070001, 43000⟩ 0 0 5).ret &&& 0x3FF = 5 :=
  C1_mint_layout (setCell ids_init 5 7) ⟨1370070001, 43000⟩ 0 0 5 7
    (by decide) (by decide) (by decide) (by decide) (by decide)

/-- C2: on a shard below 1024 whose cell holds prev ≤ 8191, a successful
`next_shard_id` returns prev in the counter field of the id and leaves the
cell holding (prev + 1) mod 8192; the table left behind is the same for any
other clock reading. -/
theorem C2_acquire_and_advance (ids : Table) (tv tv2 : Timeval)
    (lock_rc unlock_rc : Int) (s prev : Nat) (hs : s < 1024)
    (hcell : ids s = prev) (hp : prev ≤ 8191)
    (hok : (next_shard_id ids tv lock_rc unlock_rc s).error = false) :
    ((next_shard_id ids tv lock_rc unlock_rc s).ret >>> 10) &&& 0x1FFF = prev ∧
      (next_shard_id ids tv lock_rc unlock_rc s).ids s = (prev + 1) % 8192 ∧
      (next_shard_id ids tv2 lock_rc unlock_rc s).ids
        = (next_shard_id ids tv lock_rc unlock_rc s).ids := by
  obtain ⟨hl, hu⟩ := (next_shard_id_error_false_iff ids tv lock_rc unlock_rc s).1 hok
  subst hl hu hcell
  refine ⟨?_, ?_, ?_⟩
  · rw [next_shard_id_ret_add ids tv s hs hp, Nat.shiftRight_eq_div_pow, and_0x1FFF]
    omega
  · rw [next_shard_id_ids_ok]
    simp only [setCell, if_true, MAX_COUNTER_VALUE]
    rw [and_0x1FFF]
    omega
  · rw [next_shard_id_ids_ok, next_shard_id_ids_ok]

/-- C2 at a concrete input: cell 5 holds 8191, so the cell wraps to 0. -/
theorem C2_acquire_and_advance_witness :
    ((next_shard_id (setCell ids_init 5 8191) ⟨1370070001, 43000⟩ 0 0 5).ret >>> 10)
        &&& 0x1FFF = 8191 ∧
      (next_shard_id (setCell ids_init 5 8191) ⟨1370070001, 43000⟩ 0 0 5).ids 5
        = (8191 + 1) % 8192 ∧
      (next_shard_id (setCell ids_init 5 8191) ⟨1570070001, 7⟩ 0 0 5).ids
        = (next_shard_id (setCell ids_init 5 8191) ⟨1370070001, 43000⟩ 0 0 5).ids :=
  C2_acquire_and_advance (setCell ids_init 5 8191) ⟨1370070001, 43000⟩ ⟨1570070001, 7⟩
    0 0 5 8191 (by decide) (by decide) (by decide) (by decide)

/-- C3: from a reachable table, run any sequence of calls in which exactly
8192 calls are on shard s < 1024 and each of those has both mutex calls
succeed (the other calls are on other shards, valid or not, succeeding or
failing, and every clock reading is arbitrary): the 8192 calls on s each
return an id, the counter fields of these ids are pairwise distinct, and so
are the ids. -/
theorem C3_uniqueness_one_cycle (s : Nat) (ids : Table) (cs : List Call)
    (hs : s < 1024) (hr : Reachable ids)
    (hsucc : ∀ c ∈ cs, c.shard = s → c.lock_rc = 0 ∧ c.unlock_rc = 0)
    (hn : (callsOn s cs).length = 8192) :
    (mintedOn s ids cs).length = 8192 ∧
      ((mintedOn s ids cs).map counterField).Nodup ∧
      (mintedOn s ids cs).Nodup := by
  have hmap := mintedOn_counters s hs cs ids (reachable_range ids hr s) hsucc
  have hnd : ((mintedOn s ids cs).map counterField).Nodup := by
    rw [hmap]
    exact counters_nodup (ids s) _ (by omega)
  refine ⟨?_, hnd, List.Nodup.of_map counterField hnd⟩
  have := congrArg List.length hmap
  simpa [hn] using this

/-- C3 on a concrete run: 8192 mints on shard 3 from the initial table, all
at one and the same clock reading. -/
theorem C3_uniqueness_one_cycle_witness :
    (mintedOn 3 ids_init
        (List.replicate 8192 (Call.mk 3 ⟨1370070001, 0⟩ 0 0))).length = 8192 ∧
      ((mintedOn 3 ids_init
        (List.replicate 8192 (Call.mk 3 ⟨1370070001, 0⟩ 0 0))).map counterField).Nodup ∧
      (mintedOn 3 ids_init
        (List.replicate 8192 (Call.mk 3 ⟨1370070001, 0⟩ 0 0))).Nodup :=
  C3_uniqueness_one_cycle 3 ids_init
    (List.replicate 8192 (Call.mk 3 ⟨1370070001, 0⟩ 0 0)) (by decide) Reachable.init
    (fun c hc _ => by rw [List.eq_of_mem_replicate hc]; exact ⟨rfl, rfl⟩)
    (callsOn_replicate 3 8192 (Call.mk 3 ⟨1370070001, 0⟩ 0 0) rfl)

/-- C4: for every 64-bit id, `shard_id_to_ms` returns
`(t >> 10) * 1000 + ((t & 0x3FF) << 10) / 1000 + 1370070000000` with
`t = id >> 23`, computed over the natural numbers: both products and the sum
stay below 2^64; and two ids with the same `id >> 23` decode alike. -/
theorem C4_decode_formula (id id2 : Nat) (h : id < 2 ^ 64) :
    shard_id_to_ms id =
        ((id >>> 23) >>> 10) * 1000 + (((id >>> 23) &&& 0x3FF) <<< 10) / 1000
          + 1370070000000 ∧
      ((id >>> 23) >>> 10) * 1000 < 2 ^ 64 ∧
      ((id >>> 23) &&& 0x3FF) <<< 10 < 2 ^ 64 ∧
      ((id >>> 23) >>> 10) * 1000 + (((id >>> 23) &&& 0x3FF) <<< 10) / 1000
          + 1370070000000 < 2 ^ 64 ∧
      (id2 >>> 23 = id >>> 23 → shard_id_to_ms id2 = shard_id_to_ms id) := by
  refine ⟨?_, ?_, ?_, ?_, ?_⟩
  · rw [shard_id_to_ms_arith id h, and_0x3FF, Nat.shiftLeft_eq,
      Nat.shiftRight_eq_div_pow, Nat.shiftRight_eq_div_pow]
  · rw [Nat.shiftRight_eq_div_pow, Nat.shiftRight_eq_div_pow]; omega
  · rw [and_0x3FF, Nat.shiftLeft_eq]; omega
  · rw [and_0x3FF, Nat.shiftLeft_eq, Nat.shiftRight_eq_div_pow,
      Nat.shiftRight_eq_div_pow]
    omega
  · intro e
    unfold shard_id_to_ms
    rw [e]

/-- C4 at a concrete input: the largest 64-bit id, and an id that differs
from it in the low 23 bits only. -/
theorem C4_decode_formula_witness :
    shard_id_to_ms (2 ^ 64 - 1) = 3517553648047 ∧
      shard_id_to_ms (2 ^ 64 - 2 ^ 23) = shard_id_to_ms (2 ^ 64 - 1) :=
  ⟨(C4_decode_formula (2 ^ 64 - 1) (2 ^ 64 - 2 ^ 23) (by decide)).1.trans (by decide),
    (C4_decode_formula (2 ^ 64 - 1) (2 ^ 64 - 2 ^ 23) (by decide)).2.2.2.2 (by decide)⟩

/-- C5, the claim as stated fails: 43000 µs after the internal epoch the true
millisecond is 1370070000043 but the compact time decodes to 1370070000041,
which is below truth - 1. -/
theorem C5_counterexample :
    InHorizon ⟨1370070000, 43000⟩ ∧
      truth_ms ⟨1370070000, 43000⟩ = 1370070000043 ∧
      shard_id_to_ms (get_msec_epoch ⟨1370070000, 43000⟩ <<< 23) = 1370070000041 ∧
      ¬ (truth_ms ⟨1370070000, 43000⟩ - 1
          ≤ (shard_id_to_ms (get_msec_epoch ⟨1370070000, 43000⟩ <<< 23) : Int)) := by
  decide

/-- C5 amended: for a clock reading inside the horizon, with t the compact
time of `get_msec_epoch` and truth = tv_sec * 1000 + tv_usec / 1000, the value
`shard_id_to_ms (t << 23)` lies in [truth - 2, truth + 1]. -/
theorem C5_round_trip_within_two (tv : Timeval) (h : InHorizon tv) :
    truth_ms tv - 2 ≤ (shard_id_to_ms (get_msec_epoch tv <<< 23) : Int) ∧
      (shard_id_to_ms (get_msec_epoch tv <<< 23) : Int) ≤ truth_ms tv + 1 := by
  have := decode_vs_truth tv h
  omega

/-- C5 amended, at the reading where the lower bound truth - 2 is attained. -/
theorem C5_round_trip_within_two_witness :
    truth_ms ⟨1370070000, 43000⟩ - 2
        ≤ (shard_id_to_ms (get_msec_epoch ⟨1370070000, 43000⟩ <<< 23) : Int) ∧
      (shard_id_to_ms (get_msec_epoch ⟨1370070000, 43000⟩ <<< 23) : Int)
        ≤ truth_ms ⟨1370070000, 43000⟩ + 1 :=
  C5_round_trip_within_two ⟨1370070000, 43000⟩ (by decide)

/-- C6: for every shard argument the minting operation (`next_shard_id_init`
followed by `next_shard_id`) reports the invalid-shard error exactly when the
shard is 1024 or more; in that case it yields no identifier and leaves the
counter table as it was. -/
theorem C6_invalid_shard (ids : Table) (tv : Timeval) (lock_rc unlock_rc : Int)
    (shard : Nat) :
    ((mint ids tv lock_rc unlock_rc [shard]).result = Except.error MintError.invalidShard
        ↔ 1024 ≤ shard) ∧
      (1024 ≤ shard →
        (mint ids tv lock_rc unlock_rc [shard]).ids = ids ∧
        ∀ v, (mint ids tv lock_rc unlock_rc [shard]).result ≠ Except.ok v) := by
  unfold mint
  rw [next_shard_id_init_single]
  by_cases h : 1024 ≤ shard
  · simp [h]
  · simp only [h, if_false, iff_false, false_imp_iff, and_true]
    simp only [List.headD_cons]
    by_cases he : (next_shard_id ids tv lock_rc unlock_rc shard).error = true
    · simp [he]
    · simp [he]

/-- C6 at the boundary: shard 1024 is rejected with the table untouched and
no value, shards 0 and 1023 are not rejected. -/
theorem C6_invalid_shard_witness :
    (mint ids_init ⟨1370070001, 0⟩ 0 0 [1024]).result
        = Except.error MintError.invalidShard ∧
      (mint ids_init ⟨1370070001, 0⟩ 0 0 [1024]).ids = ids_init ∧
      (mint ids_init ⟨1370070001, 0⟩ 0 0 [1023]).result
        ≠ Except.error MintError.invalidShard ∧
      (mint ids_init ⟨1370070001, 0⟩ 0 0 [0]).result
        ≠ Except.error MintError.invalidShard :=
  ⟨(C6_invalid_shard ids_init ⟨1370070001, 0⟩ 0 0 1024).1.2 (by decide),
    ((C6_invalid_shard ids_init ⟨1370070001, 0⟩ 0 0 1024).2 (by decide)).1,
    fun h => absurd ((C6_invalid_shard ids_init ⟨1370070001, 0⟩ 0 0 1023).1.1 h) (by decide),
    fun h => absurd ((C6_invalid_shard ids_init ⟨1370070001, 0⟩ 0 0 0).1.1 h) (by decide)⟩

/-- C7: for shards below 1024, any cell contents and any clock readings, the
id a successful `next_shard_id` returns has `id & 0x3FF` equal to the shard;
so the ids returned for two different shards differ. -/
theorem C7_shard_bits (ids1 ids2 : Table) (tv1 tv2 : Timeval)
    (l1 u1 l2 u2 : Int) (s1 s2 : Nat) (hs1 : s1 < 1024) (hs2 : s2 < 1024)
    (hok1 : (next_shard_id ids1 tv1 l1 u1 s1).error = false)
    (hok2 : (next_shard_id ids2 tv2 l2 u2 s2).error = false) :
    (next_shard_id ids1 tv1 l1 u1 s1).ret &&& 0x3FF = s1 ∧
      (s1 ≠ s2 → (next_shard_id ids1 tv1 l1 u1 s1).ret ≠ (next_shard_id ids2 tv2 l2 u2 s2).ret) := by
  obtain ⟨hl1, hu1⟩ := (next_shard_id_error_false_iff ids1 tv1 l1 u1 s1).1 hok1
  obtain ⟨hl2, hu2⟩ := (next_shard_id_error_false_iff ids2 tv2 l2 u2 s2).1 hok2
  subst hl1 hu1 hl2 hu2
  have b1 := next_shard_id_shard_bits ids1 tv1 s1 hs1
  have b2 := next_shard_id_shard_bits ids2 tv2 s2 hs2
  refine ⟨b1, fun hne heq => hne ?_⟩
  rw [← b1, ← b2, heq]

/-- C7 at a concrete input: a cell holding the full 16 bits, a clock reading
before the internal epoch with microseconds out of range, shards 1023 and 0. -/
theorem C7_shard_bits_witness :
    (next_shard_id (setCell ids_init 1023 65535) ⟨-5, 123456789⟩ 0 0 1023).ret
        &&& 0x3FF = 1023 ∧
      (next_shard_id (setCell ids_init 1023 65535) ⟨-5, 123456789⟩ 0 0 1023).ret
        ≠ (next_shard_id ids_init ⟨1370070001, 0⟩ 0 0 0).ret :=
  ⟨(C7_shard_bits (setCell ids_init 1023 65535) ids_init ⟨-5, 123456789⟩
      ⟨1370070001, 0⟩ 0 0 0 0 1023 0 (by decide) (by decide) (by decide) (by decide)).1,
    (C7_shard_bits (setCell ids_init 1023 65535) ids_init ⟨-5, 123456789⟩
      ⟨1370070001, 0⟩ 0 0 0 0 1023 0 (by decide) (by decide) (by decide) (by decide)).2
      (by decide)⟩

/-- C8: the predicate "each of the 1024 cells is at most 8191" holds of the
initial table, is preserved by every call of `next_shard_id` (whatever the
clock and the lock return codes), and so holds of every table reachable from
the initial one by minting operations. -/
theorem C8_counter_range :
    (∀ i, i < 1024 → ids_init i ≤ 8191) ∧
      (∀ (ids : Table) (tv : Timeval) (lock_rc unlock_rc : Int) (s : Nat),
        s < 1024 → (∀ i, i < 1024 → ids i ≤ 8191) →
          ∀ i, i < 1024 → (next_shard_id ids tv lock_rc unlock_rc s).ids i ≤ 8191) ∧
      (∀ ids : Table, Reachable ids → ∀ i, i < 1024 → ids i ≤ 8191) := by
  refine ⟨fun i _ => by simp [ids_init], ?_, fun ids h i _ => reachable_range ids h i⟩
  intro ids tv lock_rc unlock_rc s _ h i hi
  exact next_shard_id_cell_range ids tv lock_rc unlock_rc s i (h i hi)

/-- C8 on a concrete run: a mint on shard 3, then one on shard 3 whose unlock
fails, then a rejected one on shard 4000. -/
theorem C8_counter_range_witness :
    (mint (mint (mint ids_init ⟨1370070001, 0⟩ 0 0 [3]).ids ⟨1370070001, 5⟩ 0 1 [3]).ids
        ⟨1370070002, 0⟩ 0 0 [4000]).ids 3 ≤ 8191 :=
  C8_counter_range.2.2 _
    (Reachable.step _ ⟨1370070002, 0⟩ 0 0 [4000]
      (Reachable.step _ ⟨1370070001, 5⟩ 0 1 [3]
        (Reachable.step _ ⟨1370070001, 0⟩ 0 0 [3] Reachable.init))) 3 (by decide)

/-- C9: for a clock reading inside the horizon, `get_msec_epoch` returns
`((off << 20) | (tv_usec & 0xFFFFF)) >> 10` with off = tv_sec - 1370070000,
which is off * 1024 + tv_usec / 1024; it is below 2^41, `>> 10` of it is off,
and its low 10 bits are `tv_usec >> 10`, at most 1023. -/
theorem C9_compact_time (tv : Timeval) (h : InHorizon tv) :
    get_msec_epoch tv =
        (((tv.tv_sec - 1370070000).toNat <<< 20) ||| (tv.tv_usec.toNat &&& 0xFFFFF)) >>> 10 ∧
      (get_msec_epoch tv : Int) = (tv.tv_sec - 1370070000) * 1024 + tv.tv_usec / 1024 ∧
      get_msec_epoch tv < 2 ^ 41 ∧
      ((get_msec_epoch tv >>> 10 : Nat) : Int) = tv.tv_sec - 1370070000 ∧
      get_msec_epoch tv &&& 0x3FF = tv.tv_usec.toNat >>> 10 ∧
      get_msec_epoch tv &&& 0x3FF ≤ 1023 := by
  have hlt := get_msec_epoch_lt tv h
  have heq := get_msec_epoch_eq tv h
  obtain ⟨h1, h2, h3, h4⟩ := h
  simp only [INTERNAL_EPOCH] at h1 h2 heq
  obtain ⟨n, hn⟩ := Int.eq_ofNat_of_zero_le h1
  obtain ⟨u, hu⟩ := Int.eq_ofNat_of_zero_le h3
  rw [hn, hu] at heq ⊢
  simp only [Int.toNat_ofNat] at heq ⊢
  rw [and_0x3FF, Nat.shiftRight_eq_div_pow, Nat.shiftRight_eq_div_pow,
    Nat.shiftRight_eq_div_pow, heq]
  refine ⟨?_, ?_, by omega, ?_, by omega, by omega⟩
  · have e : u &&& 0xFFFFF = u % 2 ^ 20 := and_mask_eq_mod u 20
    rw [e, Nat.mod_eq_of_lt (show u < 2 ^ 20 by omega),
      shl_or_eq_add n u 20 (show u < 2 ^ 20 by omega)]
    omega
  · push_cast; omega
  · have e : (n * 1024 + u / 1024) / 2 ^ 10 = n := by omega
    rw [e]

/-- C9 at the last representable microsecond: the seconds offset is 2^31 - 1
and the quantum is 999999 >> 10 = 976. -/
theorem C9_compact_time_witness :
    get_msec_epoch ⟨3517553647, 999999⟩ < 2 ^ 41 ∧
      get_msec_epoch ⟨3517553647, 999999⟩ &&& 0x3FF = 976 ∧
      ((get_msec_epoch ⟨3517553647, 999999⟩ >>> 10 : Nat) : Int) = 2 ^ 31 - 1 :=
  ⟨(C9_compact_time ⟨3517553647, 999999⟩ (by decide)).2.2.1,
    (C9_compact_time ⟨3517553647, 999999⟩ (by decide)).2.2.2.2.1.trans (by decide),
    (C9_compact_time ⟨3517553647, 999999⟩ (by decide)).2.2.2.1.trans (by decide)⟩

/-- C10, the claim as stated fails: 2^30 seconds after the internal epoch
(in 2047, inside the horizon) the id minted on shard 0 of the initial table
is 2^63, so bit 63 is set. -/
theorem C10_counterexample :
    Reachable ids_init ∧ InHorizon ⟨2443811824, 0⟩ ∧
      (next_shard_id ids_init ⟨2443811824, 0⟩ 0 0 0).error = false ∧
      (next_shard_id ids_init ⟨2443811824, 0⟩ 0 0 0).ret = 2 ^ 63 ∧
      ¬ ((next_shard_id ids_init ⟨2443811824, 0⟩ 0 0 0).ret < 2 ^ 63) :=
  ⟨Reachable.init, by decide, by decide, by decide, by decide⟩

/-- C10 amended: for a shard below 1024, a reachable table and a clock reading
inside the horizon, the id returned by a successful `next_shard_id` is below
2^64 with the compact time in bits 63 down to 23 (`id >> 23` is the compact
time), and bit 63 is 0 exactly when the seconds offset is below 2^30. -/
theorem C10_sign_bit (ids : Table) (tv : Timeval) (lock_rc unlock_rc : Int)
    (s : Nat) (hs : s < 1024) (hr : Reachable ids) (htv : InHorizon tv)
    (hok : (next_shard_id ids tv lock_rc unlock_rc s).error = false) :
    (next_shard_id ids tv lock_rc unlock_rc s).ret < 2 ^ 64 ∧
      (next_shard_id ids tv lock_rc unlock_rc s).ret >>> 23 = get_msec_epoch tv ∧
      ((next_shard_id ids tv lock_rc unlock_rc s).ret < 2 ^ 63 ↔
        tv.tv_sec - 1370070000 < 2 ^ 30) := by
  obtain ⟨hl, hu⟩ := (next_shard_id_error_false_iff ids tv lock_rc unlock_rc s).1 hok
  subst hl hu
  have hc := reachable_range ids hr s
  have ht := get_msec_epoch_lt tv htv
  have heq := get_msec_epoch_eq tv htv
  have hret := next_shard_id_ret_add ids tv s hs hc
  rw [Nat.mod_eq_of_lt ht] at hret
  obtain ⟨h1, h2, h3, h4⟩ := htv
  simp only [INTERNAL_EPOCH] at h1 h2 heq
  obtain ⟨n, hn⟩ := Int.eq_ofNat_of_zero_le h1
  obtain ⟨u, hu⟩ := Int.eq_ofNat_of_zero_le h3
  rw [hn, hu] at heq
  simp only [Int.toNat_ofNat] at heq
  rw [hret, Nat.shiftRight_eq_div_pow, hn]
  refine ⟨by omega, by omega, ?_⟩
  rw [heq]
  constructor
  · intro hlt
    have : n < 2 ^ 30 := by omega
    exact_mod_cast this
  · intro hlt
    have : n < 2 ^ 30 := by exact_mod_cast hlt
    omega

/-- C10 amended, at the first second whose ids have bit 63 set. -/
theorem C10_sign_bit_witness :
    (next_shard_id ids_init ⟨2443811824, 0⟩ 0 0 0).ret < 2 ^ 64 ∧
      (next_shard_id ids_init ⟨2443811824, 0⟩ 0 0 0).ret >>> 23
        = get_msec_epoch ⟨2443811824, 0⟩ ∧
      ((next_shard_id ids_init ⟨2443811824, 0⟩ 0 0 0).ret < 2 ^ 63 ↔
        (2443811824 : Int) - 1370070000 < 2 ^ 30) :=
  C10_sign_bit ids_init ⟨2443811824, 0⟩ 0 0 0 (by decide) Reachable.init
    (by decide) (by decide)

/-- C11: for two clock readings A ≤ B (lexicographic) inside the horizon,
any shards below 1024 and any tables whose counters are 13-bit, the ids
returned by successful calls of `next_shard_id` at A and at B satisfy
`(id_A >> 23) ≤ (id_B >> 23)`. -/
theorem C11_monotonic_compact_time (idsA idsB : Table) (tvA tvB : Timeval)
    (lA uA lB uB : Int) (sA sB : Nat) (hsA : sA < 1024) (hsB : sB < 1024)
    (hcA : idsA sA ≤ 8191) (hcB : idsB sB ≤ 8191)
    (hA : InHorizon tvA) (hB : InHorizon tvB) (hAB : ClockLe tvA tvB)
    (hokA : (next_shard_id idsA tvA lA uA sA).error = false)
    (hokB : (next_shard_id idsB tvB lB uB sB).error = false) :
    (next_shard_id idsA tvA lA uA sA).ret >>> 23
      ≤ (next_shard_id idsB tvB lB uB sB).ret >>> 23 := by
  obtain ⟨h1, h2⟩ := (next_shard_id_error_false_iff idsA tvA lA uA sA).1 hokA
  obtain ⟨h3, h4⟩ := (next_shard_id_error_false_iff idsB tvB lB uB sB).1 hokB
  subst h1 h2 h3 h4
  rw [next_shard_id_time_bits idsA tvA sA hsA hcA hA,
    next_shard_id_time_bits idsB tvB sB hsB hcB hB]
  exact get_msec_epoch_mono tvA tvB hA hB hAB

/-- C11 at a concrete input: readings 1 µs apart across a second boundary,
the earlier one on shard 1023 with counter 8191, the later on shard 0. -/
theorem C11_monotonic_compact_time_witness :
    (next_shard_id (setCell ids_init 1023 8191) ⟨1370070001, 999999⟩ 0 0 1023).ret >>> 23
      ≤ (next_shard_id ids_init ⟨1370070002, 0⟩ 0 0 0).ret >>> 23 :=
  C11_monotonic_compact_time (setCell ids_init 1023 8191) ids_init
    ⟨1370070001, 999999⟩ ⟨1370070002, 0⟩ 0 0 0 0 1023 0
    (by decide) (by decide) (by decide) (by decide) (by decide) (by decide)
    (by decide) (by decide) (by decide)

/-- C12, the claim as stated fails: from the initial table, after a call on
shard 7 whose unlock fails, the first successful mint on shard 7 (number 0)
returns the id 8589935623 whose counter field is 1, not 0; and in the run
success, failed unlock, success the two ids carry the counters 0 and 2, so the
second is not its predecessor plus one. -/
theorem C12_counterexample :
    (mintedOn 7 ids_init
        [Call.mk 7 ⟨1370070001, 0⟩ 0 1, Call.mk 7 ⟨1370070001, 0⟩ 0 0])[0]?
        = some 8589935623 ∧
      (8589935623 >>> 10) &&& 0x1FFF = 1 ∧
      ¬ ((8589935623 >>> 10) &&& 0x1FFF = 0 % 8192) ∧
      (mintedOn 7 ids_init
        [Call.mk 7 ⟨1370070001, 0⟩ 0 0, Call.mk 7 ⟨1370070001, 0⟩ 0 1,
          Call.mk 7 ⟨1370070001, 0⟩ 0 0]).map counterField = [0, 2] ∧
      ¬ (2 = (0 + 1) % 8192) := by
  decide

/-- C12 amended: run any calls `pre` from the initial table (any shards,
clock readings and lock return codes), then a successful call `c` on a shard
s < 1024.  With n the number of successful calls on s in `pre` and u the
number of calls on s in `pre` whose unlock failed after the lock was acquired,
`c` returns an id, it is the n-th id returned on s in the whole run, its
counter field is (n + u) mod 8192 and its shard field is s.  The next
successful call on s returns an id whose counter field is that of `c` plus
one plus the number of failed unlocks on s in between, modulo 8192. -/
theorem C12_counter_sequence (s : Nat) (pre post : List Call) (c : Call)
    (hs : s < 1024) (hc : c.shard = s) (hl : c.lock_rc = 0) (hu : c.unlock_rc = 0) :
    ∃ v,
      (mint (runTable ids_init pre) c.tv c.lock_rc c.unlock_rc [c.shard]).result
          = Except.ok v ∧
        (mintedOn s ids_init (pre ++ c :: post))[(succeededOn s pre).length]? = some v ∧
        (v >>> 10) &&& 0x1FFF
          = ((succeededOn s pre).length + (unlockFailedOn s pre).length) % 8192 ∧
        v &&& 0x3FF = s ∧
        (∀ (mid : List Call) (c2 : Call),
          c2.shard = s → c2.lock_rc = 0 → c2.unlock_rc = 0 → succeededOn s mid = [] →
          ∃ w,
            (mint (runTable ids_init (pre ++ c :: mid)) c2.tv c2.lock_rc c2.unlock_rc
                [c2.shard]).result = Except.ok w ∧
              (w >>> 10) &&& 0x1FFF
                = (((v >>> 10) &&& 0x1FFF) + 1 + (unlockFailedOn s mid).length) % 8192) := by
  have hv := minted_after_run s hs pre c.tv
  unfold counterField at hv
  refine ⟨(next_shard_id (runTable ids_init pre) c.tv 0 0 s).ret, ?_, ?_, hv,
    next_shard_id_shard_bits _ c.tv s hs, ?_⟩
  · rw [hc, hl, hu, mint_ok _ c.tv s hs]
  · rw [mintedOn_append, mintedOn_cons_ok s _ c post hs hc hl hu,
      ← mintedOn_length s hs pre ids_init,
      List.getElem?_append_right (Nat.le_refl _), Nat.sub_self]
    exact List.getElem?_cons_zero
  · intro mid c2 hc2 hl2 hu2 hmid
    have hw := minted_after_run s hs (pre ++ c :: mid) c2.tv
    unfold counterField at hw
    refine ⟨(next_shard_id (runTable ids_init (pre ++ c :: mid)) c2.tv 0 0 s).ret, ?_, ?_⟩
    · rw [hc2, hl2, hu2, mint_ok _ c2.tv s hs]
    · have f1 : (succeededOn s (pre ++ c :: mid)).length
          = (succeededOn s pre).length + 1 := by
        have e : succeededOn s (pre ++ c :: mid)
            = succeededOn s pre ++ succeededOn s (c :: mid) := by
          unfold succeededOn; exact List.filter_append _ _
        have e2 : succeededOn s (c :: mid) = c :: succeededOn s mid := by
          unfold succeededOn
          rw [List.filter_cons_of_pos]
          simp [hc, hl, hu]
        rw [e, e2, hmid, List.length_append]
        rfl
      have f2 : (unlockFailedOn s (pre ++ c :: mid)).length
          = (unlockFailedOn s pre).length + (unlockFailedOn s mid).length := by
        have e : unlockFailedOn s (pre ++ c :: mid)
            = unlockFailedOn s pre ++ unlockFailedOn s (c :: mid) := by
          unfold unlockFailedOn; exact List.filter_append _ _
        have e2 : unlockFailedOn s (c :: mid) = unlockFailedOn s mid := by
          unfold unlockFailedOn
          rw [List.filter_cons_of_neg]
          simp [hu]
        rw [e, e2, List.length_append]
      rw [hw, hv, f1, f2]
      omega

/-- C12 amended, on a concrete run: on shard 7 a success, a failed unlock
and a failed lock, then calls on shards 8 and 5000, then the successful call
considered and one more.  Here n = 1 and u = 1: the call returns the id
17179871239, number 1 on shard 7, with counter field 2 and shard field 7.
With no failing call on shard 7, 10 mints carry the counters 0, 1, ..., 9. -/
theorem C12_counter_sequence_witness :
    (mintedOn 7 ids_init
        ([Call.mk 7 ⟨1370070001, 0⟩ 0 0, Call.mk 7 ⟨1370070001, 0⟩ 0 1,
            Call.mk 7 ⟨1370070001, 0⟩ 1 0, Call.mk 8 ⟨1370070001, 0⟩ 0 0,
            Call.mk 5000 ⟨1370070001, 0⟩ 0 0] ++
          Call.mk 7 ⟨1370070002, 0⟩ 0 0 :: [Call.mk 7 ⟨1370070002, 0⟩ 0 0]))[1]?
        = some 17179871239 ∧
      (17179871239 >>> 10) &&& 0x1FFF = (1 + 1) % 8192 ∧
      17179871239 &&& 0x3FF = 7 ∧
      (mintedOn 7 ids_init
        (List.replicate 3 (Call.mk 7 ⟨1370070001, 0⟩ 0 0) ++
          Call.mk 8 ⟨1370070001, 5⟩ 0 1 :: Call.mk 5000 ⟨1370070001, 6⟩ 0 0 ::
            List.replicate 7 (Call.mk 7 ⟨1370070002, 0⟩ 0 0))).map counterField
        = [0, 1, 2, 3, 4, 5, 6, 7, 8, 9] := by
  obtain ⟨v, _, h2, h3, h4, _⟩ :=
    C12_counter_sequence 7
      [Call.mk 7 ⟨1370070001, 0⟩ 0 0, Call.mk 7 ⟨1370070001, 0⟩ 0 1,
        Call.mk 7 ⟨1370070001, 0⟩ 1 0, Call.mk 8 ⟨1370070001, 0⟩ 0 0,
        Call.mk 5000 ⟨1370070001, 0⟩ 0 0]
      [Call.mk 7 ⟨1370070002, 0⟩ 0 0] (Call.mk 7 ⟨1370070002, 0⟩ 0 0)
      (by decide) rfl rfl rfl
  have hv : some v = some 17179871239 := h2.symm.trans (by decide)
  have hv2 : v = 17179871239 := Option.some.inj hv
  subst hv2
  exact ⟨h2, h3, h4, by decide⟩

/-- C13, the claim as stated fails: on the initial table a call on shard 3
whose lock succeeds and whose unlock fails reports the error and returns 0,
but cell 3 has gone from 0 to 1. -/
theorem C13_counterexample :
    (next_shard_id ids_init ⟨1370070001, 0⟩ 0 1 3).error = true ∧
      (next_shard_id ids_init ⟨1370070001, 0⟩ 0 1 3).ret = 0 ∧
      ids_init 3 = 0 ∧
      (next_shard_id ids_init ⟨1370070001, 0⟩ 0 1 3).ids 3 = 1 ∧
      (next_shard_id ids_init ⟨1370070001, 0⟩ 0 1 3).ids ≠ ids_init := by
  refine ⟨by decide, by decide, by decide, by decide, ?_⟩
  intro h
  have h3 := congrFun h 3
  revert h3
  decide

/-- C13 amended: when the lock acquisition or the release fails,
`next_shard_id` sets the error flag and returns 0, and the minting operation
yields the lock error instead of an identifier; if the acquisition failed the
table is exactly as before; if the acquisition succeeded and the release
failed, cell s holds its old value plus one modulo 8192 and every other cell
is as before. -/
theorem C13_lock_error (ids : Table) (tv : Timeval) (lock_rc unlock_rc : Int)
    (s : Nat) (hs : s < 1024) (hfail : lock_rc ≠ 0 ∨ unlock_rc ≠ 0) :
    (next_shard_id ids tv lock_rc unlock_rc s).error = true ∧
      (next_shard_id ids tv lock_rc unlock_rc s).ret = 0 ∧
      (mint ids tv lock_rc unlock_rc [s]).result = Except.error MintError.lockError ∧
      (lock_rc ≠ 0 → (next_shard_id ids tv lock_rc unlock_rc s).ids = ids) ∧
      (lock_rc = 0 →
        (next_shard_id ids tv lock_rc unlock_rc s).ids s = (ids s + 1) % 8192 ∧
        ∀ j, j ≠ s → (next_shard_id ids tv lock_rc unlock_rc s).ids j = ids j) := by
  obtain ⟨he, hr⟩ := next_shard_id_fail ids tv lock_rc unlock_rc s hfail
  refine ⟨he, hr, ?_, fun hl => next_shard_id_lock_fail ids tv lock_rc unlock_rc s hl, ?_⟩
  · have hn : ¬ 1024 ≤ s := by omega
    unfold mint
    rw [next_shard_id_init_single]
    simp [hn, he]
  · intro hl
    subst hl
    exact ⟨next_shard_id_advance ids tv unlock_rc s,
      fun j hj => next_shard_id_frame ids tv 0 unlock_rc s j hj⟩

/-- C13 amended, at a failing unlock on shard 3 whose cell holds 8191 and at
a failing lock on the same table. -/
theorem C13_lock_error_witness :
    (next_shard_id (setCell ids_init 3 8191) ⟨1370070001, 0⟩ 0 22 3).error = true ∧
      (next_shard_id (setCell ids_init 3 8191) ⟨1370070001, 0⟩ 0 22 3).ids 3
        = (setCell ids_init 3 8191 3 + 1) % 8192 ∧
      (next_shard_id (setCell ids_init 3 8191) ⟨1370070001, 0⟩ 22 0 3).ids
        = setCell ids_init 3 8191 :=
  ⟨(C13_lock_error (setCell ids_init 3 8191) ⟨1370070001, 0⟩ 0 22 3 (by decide)
      (Or.inr (by decide))).1,
    ((C13_lock_error (setCell ids_init 3 8191) ⟨1370070001, 0⟩ 0 22 3 (by decide)
      (Or.inr (by decide))).2.2.2.2 rfl).1,
    (C13_lock_error (setCell ids_init 3 8191) ⟨1370070001, 0⟩ 22 0 3 (by decide)
      (Or.inl (by decide))).2.2.2.1 (by decide)⟩

/-- C14: every id below 2^23 (compact-time field zero, any counter and shard
bits) decodes to 1370070000000. -/
theorem C14_epoch_invariance (id : Nat) (h : id < 2 ^ 23) :
    shard_id_to_ms id = 1370070000000 := by
  rw [shard_id_to_ms_arith id (by omega)]
  omega

/-- C14 at the literal identifier 0 and at the largest id below 2^23. -/
theorem C14_epoch_invariance_witness :
    shard_id_to_ms 0x0000000000000000 = 1370070000000 ∧
      shard_id_to_ms (2 ^ 23 - 1) = 1370070000000 :=
  ⟨C14_epoch_invariance 0 (by decide), C14_epoch_invariance (2 ^ 23 - 1) (by decide)⟩

/-- C15: for a shard below 1024, a reachable table and a clock reading inside
the horizon, the id returned by a successful `next_shard_id` decodes to a
millisecond that is never above truth = tv_sec * 1000 + tv_usec / 1000 and at
most 2 below it. -/
theorem C15_decode_fresh_id (ids : Table) (tv : Timeval) (lock_rc unlock_rc : Int)
    (s : Nat) (hs : s < 1024) (hr : Reachable ids) (htv : InHorizon tv)
    (hok : (next_shard_id ids tv lock_rc unlock_rc s).error = false) :
    (shard_id_to_ms (next_shard_id ids tv lock_rc unlock_rc s).ret : Int) ≤ truth_ms tv ∧
      truth_ms tv - 2 ≤ (shard_id_to_ms (next_shard_id ids tv lock_rc unlock_rc s).ret : Int) := by
  obtain ⟨hl, hu⟩ := (next_shard_id_error_false_iff ids tv lock_rc unlock_rc s).1 hok
  subst hl hu
  rw [decode_minted ids tv s hs (reachable_range ids hr s) htv]
  have := decode_vs_truth tv htv
  omega

/-- C15 at a concrete input: the table after one mint on shard 5, at a
reading where the decoded value is 2 ms below the wall clock. -/
theorem C15_decode_fresh_id_witness :
    (shard_id_to_ms (next_shard_id (mint ids_init ⟨1370070000, 0⟩ 0 0 [5]).ids
        ⟨1370070000, 43000⟩ 0 0 5).ret : Int) ≤ truth_ms ⟨1370070000, 43000⟩ ∧
      truth_ms ⟨1370070000, 43000⟩ - 2
        ≤ (shard_id_to_ms (next_shard_id (mint ids_init ⟨1370070000, 0⟩ 0 0 [5]).ids
            ⟨1370070000, 43000⟩ 0 0 5).ret : Int) :=
  C15_decode_fresh_id (mint ids_init ⟨1370070000, 0⟩ 0 0 [5]).ids ⟨1370070000, 43000⟩
    0 0 5 (by decide) (Reachable.step _ _ _ _ _ Reachable.init) (by decide) (by decide)

/-- C16: from a reachable table, in a run with exactly 8193 calls on shard
s < 1024, each with both mutex calls succeeding and each reading the same
clock (calls on other shards are arbitrary), all 8193 calls return an id, the
first and the 8193rd id are equal, and the first 8192 ids are pairwise
distinct. -/
theorem C16_counter_wrap_collision (s : Nat) (ids : Table) (tv : Timeval)
    (cs : List Call) (hs : s < 1024) (hr : Reachable ids)
    (hsucc : ∀ c ∈ cs, c.shard = s → c.lock_rc = 0 ∧ c.unlock_rc = 0)
    (hclock : ∀ c ∈ cs, c.shard = s → c.tv = tv)
    (hn : (callsOn s cs).length = 8193) :
    (mintedOn s ids cs).length = 8193 ∧
      (∃ v, (mintedOn s ids cs)[0]? = some v ∧ (mintedOn s ids cs)[8192]? = some v) ∧
      ((mintedOn s ids cs).take 8192).Nodup := by
  have hc := reachable_range ids hr s
  have hL := mintedOn_same_clock s hs tv cs ids hc hsucc hclock
  rw [hn] at hL
  rw [hL]
  refine ⟨by rw [List.length_map, List.length_range], ?_, ?_⟩
  · refine ⟨(get_msec_epoch tv % 2 ^ 41) * 2 ^ 23 + ((ids s + 0) % 8192) * 1024 + s, ?_, ?_⟩
    · exact getElem?_map_range_lt _ 8193 0 (by decide)
    · rw [getElem?_map_range_lt _ 8193 8192 (by decide)]
      have e : (ids s + 8192) % 8192 = (ids s + 0) % 8192 := by omega
      simp only [e]
  · rw [← List.map_take, List.take_range]
    exact ids_same_clock_nodup _ (ids s) s _ (by decide)

/-- C16 on a concrete run: 8193 mints on shard 3 from the initial table, all
at one clock reading. -/
theorem C16_counter_wrap_collision_witness :
    (mintedOn 3 ids_init
        (List.replicate 8193 (Call.mk 3 ⟨1370070001, 0⟩ 0 0))).length = 8193 ∧
      (∃ v, (mintedOn 3 ids_init
          (List.replicate 8193 (Call.mk 3 ⟨1370070001, 0⟩ 0 0)))[0]? = some v ∧
        (mintedOn 3 ids_init
          (List.replicate 8193 (Call.mk 3 ⟨1370070001, 0⟩ 0 0)))[8192]? = some v) ∧
      ((mintedOn 3 ids_init
        (List.replicate 8193 (Call.mk 3 ⟨1370070001, 0⟩ 0 0))).take 8192).Nodup :=
  C16_counter_wrap_collision 3 ids_init ⟨1370070001, 0⟩
    (List.replicate 8193 (Call.mk 3 ⟨1370070001, 0⟩ 0 0)) (by decide) Reachable.init
    (fun c hc _ => by rw [List.eq_of_mem_replicate hc]; exact ⟨rfl, rfl⟩)
    (fun c hc _ => by rw [List.eq_of_mem_replicate hc])
    (callsOn_replicate 3 8193 (Call.mk 3 ⟨1370070001, 0⟩ 0 0) rfl)

/-- C17, the claim as stated fails: 2^31 seconds after the internal epoch a
call on shard 0 of the initial table succeeds and returns the id 0, whose
seconds field `id >> 33` is 0 and not 2^31. -/
theorem C17_counterexample :
    (3517553648 : Int) - INTERNAL_EPOCH = 2 ^ 31 ∧
      (next_shard_id ids_init ⟨3517553648, 0⟩ 0 0 0).error = false ∧
      (next_shard_id ids_init ⟨3517553648, 0⟩ 0 0 0).ret = 0 ∧
      (next_shard_id ids_init ⟨3517553648, 0⟩ 0 0 0).ret >>> 33 ≠ 2 ^ 31 := by
  decide

/-- C17 amended: for a clock reading whose seconds offset is 2^31 or more
there is no horizon check: `next_shard_id` succeeds exactly when both mutex
calls succeed, and the id it then returns has the seconds offset modulo 2^31
in its seconds field `id >> 33`, which is not the seconds offset. -/
theorem C17_time_field_wraps (ids : Table) (tv : Timeval) (lock_rc unlock_rc : Int)
    (s : Nat) (hoff : 2 ^ 31 ≤ tv.tv_sec - INTERNAL_EPOCH) :
    ((next_shard_id ids tv lock_rc unlock_rc s).error = false ↔
        lock_rc = 0 ∧ unlock_rc = 0) ∧
      ((next_shard_id ids tv lock_rc unlock_rc s).error = false →
        (((next_shard_id ids tv lock_rc unlock_rc s).ret >>> 33 : Nat) : Int)
            = (tv.tv_sec - INTERNAL_EPOCH) % 2 ^ 31 ∧
          (((next_shard_id ids tv lock_rc unlock_rc s).ret >>> 33 : Nat) : Int)
            ≠ tv.tv_sec - INTERNAL_EPOCH) := by
  refine ⟨next_shard_id_error_false_iff ids tv lock_rc unlock_rc s, ?_⟩
  intro hok
  obtain ⟨hl, hu⟩ := (next_shard_id_error_false_iff ids tv lock_rc unlock_rc s).1 hok
  subst hl hu
  obtain ⟨n, hn⟩ := Int.eq_ofNat_of_zero_le (show 0 ≤ tv.tv_sec - INTERNAL_EPOCH by omega)
  rw [next_shard_id_seconds_field ids tv s n hn, hn]
  rw [hn] at hoff
  constructor
  · push_cast; rfl
  · omega

/-- C17 amended, at the first second past the horizon and at a later one. -/
theorem C17_time_field_wraps_witness :
    (((next_shard_id ids_init ⟨3517553648, 0⟩ 0 0 0).ret >>> 33 : Nat) : Int)
        = ((3517553648 : Int) - INTERNAL_EPOCH) % 2 ^ 31 ∧
      (((next_shard_id ids_init ⟨3517553648 + 5, 999999⟩ 0 0 1023).ret >>> 33 : Nat) : Int)
        ≠ (3517553648 : Int) + 5 - INTERNAL_EPOCH :=
  ⟨((C17_time_field_wraps ids_init ⟨3517553648, 0⟩ 0 0 0 (by decide)).2 (by decide)).1,
    ((C17_time_field_wraps ids_init ⟨3517553648 + 5, 999999⟩ 0 0 1023
      (by decide)).2 (by decide)).2⟩

/-- C18, the code at a failing input: the id 2^63, which `next_shard_id`
returns on shard 0 of the initial table 2^30 seconds after the internal
epoch, decodes to 2443811824000, which is not below 2^41; the largest 64-bit
id decodes to 3517553648047. -/
theorem C18_decode_exceeds_41_bits :
    (next_shard_id ids_init ⟨2443811824, 0⟩ 0 0 0).ret = 0x8000000000000000 ∧
      shard_id_to_ms 0x8000000000000000 = 2443811824000 ∧
      ¬ (shard_id_to_ms 0x8000000000000000 < 2 ^ 41) ∧
      shard_id_to_ms (2 ^ 64 - 1) = 3517553648047 := by
  decide

/-- C19: a call of `next_shard_id` on a shard s below 1024, for any table,
clock reading and lock return codes, leaves the cell of every other shard as
it was; a cell that differs after the call is cell s. -/
theorem C19_frame (ids : Table) (tv : Timeval) (lock_rc unlock_rc : Int)
    (s : Nat) (_hs : s < 1024) :
    (∀ j, j < 1024 → j ≠ s →
        (next_shard_id ids tv lock_rc unlock_rc s).ids j = ids j) ∧
      (∀ j, (next_shard_id ids tv lock_rc unlock_rc s).ids j ≠ ids j → j = s) := by
  refine ⟨fun j _ hj => next_shard_id_frame ids tv lock_rc unlock_rc s j hj, ?_⟩
  intro j hj
  by_contra hne
  exact hj (next_shard_id_frame ids tv lock_rc unlock_rc s j hne)

/-- C19 at a concrete input: a call on shard 3 whose unlock fails leaves
cell 4, which holds 77, as it was. -/
theorem C19_frame_witness :
    (next_shard_id (setCell ids_init 4 77) ⟨1370070001, 0⟩ 0 1 3).ids 4
      = (setCell ids_init 4 77) 4 :=
  (C19_frame (setCell ids_init 4 77) ⟨1370070001, 0⟩ 0 1 3 (by decide)).1 4
    (by decide) (by decide)

/-- C20: for two clock readings A ≤ B (lexicographic) inside the horizon,
any shards below 1024 and any tables whose counters are 13-bit, the ids
returned by successful calls of `next_shard_id` decode in order,
`shard_id_to_ms id_A ≤ shard_id_to_ms id_B`; the sub-millisecond term
`((t & 0x3FF) << 10) / 1000` of such a compact time is at most 999, while
over all ids it is at most 1047 and reaches 1047. -/
theorem C20_decode_monotone (idsA idsB : Table) (tvA tvB : Timeval)
    (lA uA lB uB : Int) (sA sB : Nat) (hsA : sA < 1024) (hsB : sB < 1024)
    (hcA : idsA sA ≤ 8191) (hcB : idsB sB ≤ 8191)
    (hA : InHorizon tvA) (hB : InHorizon tvB) (hAB : ClockLe tvA tvB)
    (hokA : (next_shard_id idsA tvA lA uA sA).error = false)
    (hokB : (next_shard_id idsB tvB lB uB sB).error = false) :
    shard_id_to_ms (next_shard_id idsA tvA lA uA sA).ret
        ≤ shard_id_to_ms (next_shard_id idsB tvB lB uB sB).ret ∧
      ((((next_shard_id idsA tvA lA uA sA).ret >>> 23) &&& 0x3FF) <<< 10) / 1000 ≤ 999 ∧
      ((((next_shard_id idsB tvB lB uB sB).ret >>> 23) &&& 0x3FF) <<< 10) / 1000 ≤ 999 ∧
      (∀ id : Nat, (((id >>> 23) &&& 0x3FF) <<< 10) / 1000 ≤ 1047) ∧
      ((((2 ^ 64 - 1) >>> 23) &&& 0x3FF) <<< 10) / 1000 = 1047 := by
  obtain ⟨h1, h2⟩ := (next_shard_id_error_false_iff idsA tvA lA uA sA).1 hokA
  obtain ⟨h3, h4⟩ := (next_shard_id_error_false_iff idsB tvB lB uB sB).1 hokB
  subst h1 h2 h3 h4
  have sub : ∀ tv : Timeval, InHorizon tv →
      ((get_msec_epoch tv &&& 0x3FF) <<< 10) / 1000 ≤ 999 := by
    intro tv htv
    rw [get_msec_epoch_eq tv htv, and_0x3FF, Nat.shiftLeft_eq]
    obtain ⟨t1, t2, t3, t4⟩ := htv
    omega
  refine ⟨?_, ?_, ?_, ?_, by decide⟩
  · rw [decode_minted idsA tvA sA hsA hcA hA, decode_minted idsB tvB sB hsB hcB hB]
    exact decode_clock_mono tvA tvB hA hB hAB
  · rw [next_shard_id_time_bits idsA tvA sA hsA hcA hA]
    exact sub tvA hA
  · rw [next_shard_id_time_bits idsB tvB sB hsB hcB hB]
    exact sub tvB hB
  · intro id
    rw [and_0x3FF, Nat.shiftLeft_eq]
    omega

/-- C20 at a concrete input: the last microsecond of one second on shard
1023 with counter 8191, and the first microsecond of the next on shard 0. -/
theorem C20_decode_monotone_witness :
    shard_id_to_ms (next_shard_id (setCell ids_init 1023 8191)
        ⟨1370070001, 999999⟩ 0 0 1023).ret
      ≤ shard_id_to_ms (next_shard_id ids_init ⟨1370070002, 0⟩ 0 0 0).ret :=
  (C20_decode_monotone (setCell ids_init 1023 8191) ids_init
    ⟨1370070001, 999999⟩ ⟨1370070002, 0⟩ 0 0 0 0 1023 0
    (by decide) (by decide) (by decide) (by decide) (by decide) (by decide)
    (by decide) (by decide) (by decide)).1

end ShardId
